import Mathlib

/-!
Verification development for the FiLiP vocabulary-configurator subsystem
(`filip/semantics/vocabulary_configurator.py`) and the NGSI-v2
`Notification` endpoint validator (`filip/models/ngsi_v2/subscriptions.py`).

The configurator itself is embedded directly from the Python source.  Its
collaborators (`Source`, `Vocabulary`, `RdfParser.parse_source_into_vocabulary`,
`post_process_vocabulary`) live in modules that are not part of the embedded
sources, so they are modelled from the specification text (sections 2-4 of the
spec); every such definition carries a doc comment starting with
`Modelled from the spec:`.

Python object identity and in-place mutation are made explicit through a small
heap of `Vocabulary` objects addressed by `Nat`; `datetime.now()` becomes an
explicit clock argument; the filesystem becomes an explicit association list
from paths to file contents.
-/

set_option autoImplicit false

/-- Modelled from the spec: `Source` (`filip.semantics.vocabulary.Source` is
not among the embedded sources).  One ingested ontology document: a name, the
raw text, and an ingestion timestamp.  Timestamps are abstracted to `Nat`
clock readings. -/
structure Source where
  source_name : String
  content : String
  timestamp : Nat
deriving DecidableEq, Repr

/-- Modelled from the spec: one parsed ontology element.  The spec only
requires a stable identifier, additively merged facts, and a user-assigned
setting carried by post-processing; facts and settings are abstracted to
strings. -/
structure Element where
  facts : List String
  setting : Option String
deriving DecidableEq, Repr

/-- Modelled from the spec: the aggregate `Vocabulary`: a mapping from source
name to `Source` plus element collections keyed by a stable identifier.
Python dictionaries are modelled as insertion-ordered association lists. -/
structure Vocabulary where
  sources : List (String × Source)
  elements : List (String × Element)
deriving DecidableEq, Repr

instance : Inhabited Vocabulary := ⟨⟨[], []⟩⟩

/-- The empty vocabulary, `Vocabulary()`. -/
def Vocabulary.empty : Vocabulary := ⟨[], []⟩

/-- First-match lookup in an association list (Python `d[k]` / `k in d`). -/
def alookup {κ α : Type} [DecidableEq κ] (k : κ) : List (κ × α) → Option α
  | [] => none
  | (k', a) :: t => if k' = k then some a else alookup k t

/-- Python dict insertion: replace in place when the key exists (keeping its
position), otherwise append at the end. -/
def aupsert {κ α : Type} [DecidableEq κ] (k : κ) (a : α) :
    List (κ × α) → List (κ × α)
  | [] => [(k, a)]
  | (k', a') :: t => if k' = k then (k, a) :: t else (k', a') :: aupsert k a t

/-- Modelled from the spec: one declaration of the supported ontology
serialization — either a class declaration or a subclass assertion (the spec
fixes no concrete grammar beyond "an RDF-based serialization" with class and
subclass declarations, section 8 scenario). -/
inductive Decl where
  | cls (id : String)
  | sub (id : String) (parent : String)
deriving DecidableEq, Repr

/-- The identifier an ontology declaration declares. -/
def declId : Decl → String
  | .cls i => i
  | .sub i _ => i

/-- The facts an ontology declaration contributes to its element. -/
def declFacts : Decl → List String
  | .cls _ => []
  | .sub _ p => ["subClassOf " ++ p]

/-- Split a character list at every occurrence of a separator (Python
`str.split(sep)` for a one-character separator): `""` yields `[""]`,
adjacent separators yield empty groups. -/
def splitOnChar (sep : Char) : List Char → List (List Char)
  | [] => [[]]
  | c :: t =>
    match splitOnChar sep t with
    | [] => [[]]
    | g :: gs => if c = sep then [] :: g :: gs else (c :: g) :: gs

/-- The keyword introducing a class declaration. -/
def kwClass : List Char := ['c', 'l', 'a', 's', 's']

/-- The keyword introducing a subclass assertion. -/
def kwSub : List Char := ['s', 'u', 'b']

/-- Modelled from the spec: one statement of the concrete serialization.
A statement is a whitespace-separated `class <id>` or `sub <id> <parent>`;
a blank statement is allowed and contributes nothing; anything else is a
syntax error (`none`). -/
def parseStatement (s : List Char) : Option (Option Decl) :=
  match (splitOnChar ' ' s).filter (fun w => w ≠ []) with
  | [] => some none
  | [w, i] => if w = kwClass then some (some (Decl.cls ⟨i⟩)) else none
  | [w, i, p] => if w = kwSub then some (some (Decl.sub ⟨i⟩ ⟨p⟩)) else none
  | _ => none

/-- Modelled from the spec: parse a source's raw content into its list of
declarations; statements are separated by semicolons; any malformed statement
makes the whole content malformed. -/
def parseContent (c : String) : Option (List Decl) :=
  (splitOnChar ';' c.toList).foldr
    (fun st acc =>
      match parseStatement st, acc with
      | some none, some ds => some ds
      | some (some d), some ds => some (d :: ds)
      | _, _ => none)
    (some [])

/-- Additive fact merge: append each new fact unless it is already present
(union, never destructive — spec section 4.1). -/
def addFacts (old : List String) (new : List String) : List String :=
  new.foldl (fun acc f => if acc.contains f then acc else acc ++ [f]) old

/-- Modelled from the spec: apply one declaration to the element collections —
merge additional facts into an existing element with the same identifier, or
create a new element record with default settings. -/
def addDecl (es : List (String × Element)) (d : Decl) : List (String × Element) :=
  match alookup (declId d) es with
  | some e => aupsert (declId d) ⟨addFacts e.facts (declFacts d), e.setting⟩ es
  | none => es ++ [(declId d, ⟨declFacts d, none⟩)]

/-- Apply a list of declarations in order. -/
def addDecls (es : List (String × Element)) (ds : List Decl) : List (String × Element) :=
  ds.foldl addDecl es

/-- Modelled from the spec: errors of the parsing pass — malformed content
(kind: syntax) or contradictory facts (kind: conflict), identifying the source
name (spec section 4.1).  The modelled serialization admits no contradictory
facts, so the conflict case never arises. -/
inductive ParseError where
  | malformed (sourceName : String)
  | conflict (sourceName : String)
deriving DecidableEq, Repr

/-- Modelled from the spec: `RdfParser.parse_source_into_vocabulary` — parses
one source's content, inserts the source into `vocabulary.sources`, and
creates or additively merges an element record per declared identifier.
In-place mutation of the vocabulary object is rendered as returning the
updated value; the caller threads it through the heap. -/
def parse_source_into_vocabulary (source : Source) (v : Vocabulary) :
    Except ParseError Vocabulary :=
  match parseContent source.content with
  | none => Except.error (ParseError.malformed source.source_name)
  | some ds =>
      Except.ok ⟨aupsert source.source_name source v.sources, addDecls v.elements ds⟩

/-- Modelled from the spec: the carry-forward step of post-processing — an
element of the new vocabulary corresponds to an element of the old one iff
their identifiers are equal; corresponding elements keep the old user-assigned
setting, new elements keep their default. -/
def carrySetting (old : Vocabulary) (id : String) (e : Element) : Element :=
  match alookup id old.elements with
  | some oldE => ⟨e.facts, oldE.setting⟩
  | none => e

/-- Modelled from the spec: `post_process_vocabulary` — reconciles the freshly
parsed vocabulary against the old snapshot, carrying user-assigned settings
forward by identifier equality.  Derived-closure computation does not affect
element identity, facts or settings and is not modelled. -/
def post_process_vocabulary (v : Vocabulary) (old : Vocabulary) : Vocabulary :=
  ⟨v.sources, v.elements.map (fun p => (p.1, carrySetting old p.1 p.2))⟩

/-- A heap of `Vocabulary` objects: Python object identity made explicit.
Addresses below `next` are the allocated ones. -/
structure VHeap where
  objs : List (Nat × Vocabulary)
  next : Nat
deriving DecidableEq, Repr

/-- Dereference an address. -/
def VHeap.get (h : VHeap) (a : Nat) : Option Vocabulary :=
  alookup a h.objs

/-- Overwrite the object at an address. -/
def VHeap.set (h : VHeap) (a : Nat) (v : Vocabulary) : VHeap :=
  ⟨aupsert a v h.objs, h.next⟩

/-- Allocate a fresh object (`Vocabulary()`), returning its address. -/
def VHeap.alloc (h : VHeap) (v : Vocabulary) : VHeap × Nat :=
  (⟨h.objs ++ [(h.next, v)], h.next + 1⟩, h.next)

/-- The Python-level errors the configurator can surface.
`parsingException` is the error the code intends to raise (a
`ParsingException` wrapping its cause); `typeError` is the `TypeError` Python
actually raises when `raise ParsingException` instantiates the class without
the required `value` constructor argument; `ioError` is a failed `open`;
`nameError` stands for dereferencing an unallocated object and never occurs
in reachable runs. -/
inductive PyError where
  | ioError
  | nameError
  | parseError (cause : ParseError)
  | parsingException (cause : ParseError)
  | typeError
deriving DecidableEq, Repr

/-- Whether an error is a `ParsingException`. -/
def PyError.isParsingException : PyError → Bool
  | .parsingException _ => true
  | _ => false

/-- Whether a call outcome is a raised `ParsingException`. -/
def raisedParsingException : Except PyError Nat → Bool
  | Except.error e => e.isParsingException
  | Except.ok _ => false

/-- Whether a call outcome is a success. -/
def callOk : Except PyError Nat → Bool
  | Except.ok _ => true
  | Except.error _ => false

/-- Parse a list of sources in order into a vocabulary value, stopping at the
first failing source (the Python `for` loop over `sources`). -/
def parseList : List Source → Vocabulary → Vocabulary × Option ParseError
  | [], v => (v, none)
  | s :: rest, v =>
    match parse_source_into_vocabulary s v with
    | Except.error e => (v, some e)
    | Except.ok v' => parseList rest v'

/-- `vocabulary.sources.values()`. -/
def sourceValues (v : Vocabulary) : List Source :=
  v.sources.map Prod.snd

/-- `VocabularyConfigurator.__parse_sources_into_vocabulary`: build a
brand-new empty vocabulary, re-parse the existing sources into it, then — in
the `try` block — parse the new sources and post-process against the old
vocabulary.  A failure inside the `try` block runs `raise ParsingException`,
which (lacking the required constructor argument) raises a `TypeError`.
A failure while re-parsing the old sources is outside the `try` block and
propagates unwrapped.  The result pairs the final heap with the returned
address or the raised error. -/
def parse_sources_into_vocabulary (h : VHeap) (vocabAddr : Nat)
    (sources : List Source) : VHeap × Except PyError Nat :=
  match h.get vocabAddr with
  | none => (h, Except.error PyError.nameError)
  | some vocab =>
    let alloc := h.alloc Vocabulary.empty
    let h1 := alloc.1
    let newAddr := alloc.2
    let step1 := parseList (sourceValues vocab) Vocabulary.empty
    match step1.2 with
    | some e => (h1.set newAddr step1.1, Except.error (PyError.parseError e))
    | none =>
      let step2 := parseList sources step1.1
      match step2.2 with
      | some _ => (h1.set newAddr step2.1, Except.error PyError.typeError)
      | none =>
        let nv := post_process_vocabulary step2.1 vocab
        (h1.set newAddr nv, Except.ok newAddr)

/-- `VocabularyConfigurator.add_ontology_to_vocabulary_as_string`:
wrap the given name and content as a `Source` stamped with the current time
and run the merge protocol on it. -/
def add_ontology_to_vocabulary_as_string (h : VHeap) (vocabAddr : Nat)
    (source_name : String) (source_content : String) (now : Nat) :
    VHeap × Except PyError Nat :=
  parse_sources_into_vocabulary h vocabAddr
    [⟨source_name, source_content, now⟩]

/-- `os.path.basename`: the part of the path after the last slash. -/
def basename (p : String) : String :=
  ⟨(splitOnChar '/' p.toList).getLastD []⟩

/-- `read().replace('\n', '')`: the text with every newline character
removed. -/
def stripNewlines (s : String) : String :=
  ⟨s.toList.filter (fun ch => ch ≠ '\n')⟩

/-- `basename(path).split(".")[0]`: the part of the filename before the
first dot. -/
def filenameStem (p : String) : String :=
  ⟨(splitOnChar '.' (basename p).toList).headD []⟩

/-- `VocabularyConfigurator.add_ontology_to_vocabulary_as_file`: read the
file (an absent or unreadable path raises an I/O error before any parsing),
strip newline characters from the text (`read().replace('\n', '')`), take the
part of the filename before the first dot as the source name
(`basename(path).split(".")[0]`), and run the merge protocol.  The filesystem
is an explicit association list from paths to readable file contents. -/
def add_ontology_to_vocabulary_as_file (fs : List (String × String)) (h : VHeap)
    (vocabAddr : Nat) (path_to_file : String) (now : Nat) :
    VHeap × Except PyError Nat :=
  match alookup path_to_file fs with
  | none => (h, Except.error PyError.ioError)
  | some raw =>
    let data := stripNewlines raw
    let filename := filenameStem path_to_file
    parse_sources_into_vocabulary h vocabAddr [⟨filename, data, now⟩]

/-- The merge protocol exactly as the spec words it (section 4.3), for
comparison with the embedded code: build a brand-new empty vocabulary;
re-parse every `Source` already present in `vocabulary.sources` into it, in
order; then parse the newly supplied source(s) into the same new vocabulary;
then invoke post-processing exactly once, with the new vocabulary as operand
and the original `vocabulary` as the old reference; return the new
vocabulary.  `none` when any parse fails. -/
def mergeProtocolSpec (vocabulary : Vocabulary) (sources : List Source) :
    Option Vocabulary :=
  let parsed := (sourceValues vocabulary ++ sources).foldl
    (fun acc s => acc.bind (fun nv => (parse_source_into_vocabulary s nv).toOption))
    (some Vocabulary.empty)
  parsed.map (fun nv => post_process_vocabulary nv vocabulary)

/-- The element collections of the object at an address (empty when the
address is unallocated). -/
def elementsAt (h : VHeap) (a : Nat) : List (String × Element) :=
  match h.get a with
  | some v => v.elements
  | none => []

/-- The sources mapping of the object at an address. -/
def sourcesAt (h : VHeap) (a : Nat) : List (String × Source) :=
  match h.get a with
  | some v => v.sources
  | none => []

/-- The user-assigned settings of a vocabulary, keyed by identifier. -/
def settingsOf (v : Vocabulary) : List (String × Option String) :=
  v.elements.map (fun p => (p.1, p.2.setting))

/-- The fact list recorded for an identifier (empty when absent). -/
def factsAt (id : String) (es : List (String × Element)) : List String :=
  match alookup id es with
  | some e => e.facts
  | none => []

/-- Boolean list inclusion. -/
def subsetB (xs ys : List String) : Bool :=
  xs.all (fun x => ys.contains x)

/-- Every element of `es` occurs in `fs` with the same set of facts. -/
def elemSubB (es fs : List (String × Element)) : Bool :=
  es.all (fun p =>
    match alookup p.1 fs with
    | some f => subsetB (factsAt p.1 es) f.facts && subsetB f.facts (factsAt p.1 es)
    | none => false)

/-- Two vocabularies have the same element set: the same identifiers are
present and each identifier carries the same set of facts (settings are
bookkeeping and not compared). -/
def sameElementSetB (v w : Vocabulary) : Bool :=
  elemSubB v.elements w.elements && elemSubB w.elements v.elements

/-- The value-level outcome of a string-variant call: the returned vocabulary
object on success, the raised error otherwise. -/
def stringCallResult (h : VHeap) (vocabAddr : Nat) (source_name : String)
    (source_content : String) (now : Nat) : Except PyError Vocabulary :=
  match add_ontology_to_vocabulary_as_string h vocabAddr source_name
      source_content now with
  | (h', Except.ok b) =>
    match h'.get b with
    | some v => Except.ok v
    | none => Except.error PyError.nameError
  | (_, Except.error e) => Except.error e

/-- The contents of a vocabulary's sources, in mapping order. -/
def contentsOf (v : Vocabulary) : List String :=
  (sourceValues v).map Source.content

/-- The element collections obtained by parsing a list of contents in order
into an empty vocabulary (malformed contents contribute nothing; the callers
only use this on well-formed contents). -/
def elemsOfContents (cs : List String) : List (String × Element) :=
  cs.foldl (fun es c => addDecls es ((parseContent c).getD [])) []

/-- The identifiers declared by a content string. -/
def declIds (c : String) : List String :=
  ((parseContent c).getD []).map declId

/-- The vocabulary value a successful string-variant call stores at the fresh
address: old sources re-parsed, the new source parsed, then post-processed
against the old vocabulary. -/
def addStringResult (v : Vocabulary) (source_name source_content : String)
    (now : Nat) : Vocabulary :=
  post_process_vocabulary
    ⟨aupsert source_name ⟨source_name, source_content, now⟩
        ((sourceValues v).foldl (fun ss s => aupsert s.source_name s ss) []),
      addDecls (elemsOfContents (contentsOf v))
        ((parseContent source_content).getD [])⟩
    v

/-- Two element collections describe the same element set. -/
def sameElemsB (es fs : List (String × Element)) : Bool :=
  elemSubB es fs && elemSubB fs es

/-- Two consecutive string-variant calls, the second operating on the
vocabulary returned by the first (stopping if the first fails). -/
def addTwice (h : VHeap) (vocabAddr : Nat) (n1 c1 : String) (t1 : Nat)
    (n2 c2 : String) (t2 : Nat) : VHeap × Except PyError Nat :=
  match add_ontology_to_vocabulary_as_string h vocabAddr n1 c1 t1 with
  | (h1, Except.ok b) => add_ontology_to_vocabulary_as_string h1 b n2 c2 t2
  | (h1, Except.error e) => (h1, Except.error e)

/-- Modelled from the source fields of `filip.models.ngsi_v2.base.Http` (the
base module is not among the embedded sources): an HTTP notification
endpoint; only its presence matters to the endpoint invariant. -/
structure Http where
  url : String
deriving DecidableEq, Repr

/-- `HttpCustom`: a custom HTTP notification endpoint (headers, qs, method
and payload do not affect the endpoint invariant and are abbreviated). -/
structure HttpCustom where
  url : String
deriving DecidableEq, Repr

/-- `Mqtt`: an MQTT notification endpoint. -/
structure Mqtt where
  url : String
  topic : String
deriving DecidableEq, Repr

/-- `MqttCustom`: a custom MQTT notification endpoint. -/
structure MqttCustom where
  url : String
deriving DecidableEq, Repr

/-- `Notification` (`filip/models/ngsi_v2/subscriptions.py`): the four
mutually exclusive endpoint fields.  The remaining fields (attrs,
exceptAttrs, attrsFormat, metadata) play no role in the endpoint invariant
and are omitted. -/
structure Notification where
  http : Option Http
  httpCustom : Option HttpCustom
  mqtt : Option Mqtt
  mqttCustom : Option MqttCustom
deriving DecidableEq, Repr

/-- `Notification.validate_endpoints`: the root validator, branch for branch.
Each `assert all(...)` over the listed keys becomes the conjunction of the
corresponding `is None` tests; a failed assertion makes validation fail
(`false`). -/
def validate_endpoints (n : Notification) : Bool :=
  if n.http.isSome then
    n.httpCustom.isNone && n.mqtt.isNone && n.mqttCustom.isNone
  else if n.httpCustom.isSome then
    n.http.isNone && n.mqtt.isNone && n.mqttCustom.isNone
  else if n.mqtt.isSome then
    n.http.isNone && n.httpCustom.isNone && n.mqttCustom.isNone
  else
    n.http.isNone && n.httpCustom.isNone && n.mqtt.isNone

/-- How many of the four endpoint fields are set. -/
def endpointCount (n : Notification) : Nat :=
  (if n.http.isSome then 1 else 0) + (if n.httpCustom.isSome then 1 else 0) +
    (if n.mqtt.isSome then 1 else 0) + (if n.mqttCustom.isSome then 1 else 0)

/-- An assignment to one of the four endpoint fields. -/
inductive EndpointAssign where
  | toHttp (v : Option Http)
  | toHttpCustom (v : Option HttpCustom)
  | toMqtt (v : Option Mqtt)
  | toMqttCustom (v : Option MqttCustom)
deriving DecidableEq, Repr

/-- The field update an assignment performs. -/
def applyAssign (n : Notification) : EndpointAssign → Notification
  | .toHttp v => ⟨v, n.httpCustom, n.mqtt, n.mqttCustom⟩
  | .toHttpCustom v => ⟨n.http, v, n.mqtt, n.mqttCustom⟩
  | .toMqtt v => ⟨n.http, n.httpCustom, v, n.mqttCustom⟩
  | .toMqttCustom v => ⟨n.http, n.httpCustom, n.mqtt, v⟩

/-- Constructing a `Notification`: pydantic runs the field validator
`validate_http` (a non-None `httpCustom` requires `http is None`) and then
the root validator `validate_endpoints`; any failure rejects the instance. -/
def constructNotification (http : Option Http) (httpCustom : Option HttpCustom)
    (mqtt : Option Mqtt) (mqttCustom : Option MqttCustom) : Option Notification :=
  let n : Notification := ⟨http, httpCustom, mqtt, mqttCustom⟩
  if httpCustom.isSome && http.isSome then none
  else if validate_endpoints n then some n else none

/-- Assigning to an endpoint field of a validated `Notification`: with
`Config.validate_assignment = True`, pydantic v1 re-runs the field validator
of the assigned field and the root validators on the updated values; on
failure the assignment raises and the object is unchanged (`none`), otherwise
the updated object is committed. -/
def setattrNotification (n : Notification) (a : EndpointAssign) : Option Notification :=
  let n' := applyAssign n a
  let fieldOk : Bool :=
    match a with
    | .toHttpCustom v => !(v.isSome && n.http.isSome)
    | _ => true
  if fieldOk && validate_endpoints n' then some n' else none

section AssocLemmas

variable {κ : Type} {α : Type} [DecidableEq κ]

theorem alookup_aupsert_self (k : κ) (a : α) (l : List (κ × α)) :
    alookup k (aupsert k a l) = some a := by
  induction l with
  | nil => simp [aupsert, alookup]
  | cons p t ih =>
    obtain ⟨k', a'⟩ := p
    by_cases hk : k' = k
    · simp [aupsert, hk, alookup]
    · simp [aupsert, hk, alookup, ih]

theorem alookup_aupsert_ne {k k' : κ} (hne : k' ≠ k) (a : α) (l : List (κ × α)) :
    alookup k (aupsert k' a l) = alookup k l := by
  induction l with
  | nil => simp [aupsert, alookup, hne]
  | cons p t ih =>
    obtain ⟨k'', a''⟩ := p
    by_cases hk : k'' = k'
    · simp [aupsert, hk, alookup, hne]
    · simp only [aupsert, if_neg hk]
      by_cases hk2 : k'' = k
      · simp [alookup, hk2]
      · simp [alookup, hk2, ih]

theorem aupsert_of_alookup_eq {k : κ} {a : α} {l : List (κ × α)}
    (h : alookup k l = some a) : aupsert k a l = l := by
  induction l with
  | nil => simp [alookup] at h
  | cons p t ih =>
    obtain ⟨k', a'⟩ := p
    by_cases hk : k' = k
    · subst hk
      simp [alookup] at h
      simp [aupsert, h]
    · simp [alookup, hk] at h
      simp [aupsert, hk, ih h]

theorem alookup_append_of_some {k : κ} {a : α} {l : List (κ × α)}
    (l' : List (κ × α)) (h : alookup k l = some a) :
    alookup k (l ++ l') = some a := by
  induction l with
  | nil => simp [alookup] at h
  | cons p t ih =>
    obtain ⟨k', a'⟩ := p
    by_cases hk : k' = k
    · simp [alookup, hk] at h ⊢; exact h
    · simp [alookup, hk] at h ⊢; exact ih h

theorem alookup_append_of_none {k : κ} {l : List (κ × α)}
    (l' : List (κ × α)) (h : alookup k l = none) :
    alookup k (l ++ l') = alookup k l' := by
  induction l with
  | nil => simp
  | cons p t ih =>
    obtain ⟨k', a'⟩ := p
    by_cases hk : k' = k
    · simp [alookup, hk] at h
    · simp [alookup, hk] at h ⊢; exact ih h

theorem aupsert_of_alookup_none {k : κ} {a : α} {l : List (κ × α)}
    (h : alookup k l = none) : aupsert k a l = l ++ [(k, a)] := by
  induction l with
  | nil => simp [aupsert]
  | cons p t ih =>
    obtain ⟨k', a'⟩ := p
    by_cases hk : k' = k
    · simp [alookup, hk] at h
    · simp [alookup, hk] at h
      simp [aupsert, hk, ih h]

theorem alookup_map {β : Type} (k : κ) (f : κ → α → β) (l : List (κ × α)) :
    alookup k (l.map (fun p => (p.1, f p.1 p.2))) = (alookup k l).map (f k) := by
  induction l with
  | nil => simp [alookup]
  | cons p t ih =>
    obtain ⟨k', a'⟩ := p
    by_cases hk : k' = k
    · subst hk; simp [alookup]
    · simp [alookup, hk, ih]

theorem alookup_isSome_of_mem {k : κ} {a : α} {l : List (κ × α)}
    (h : (k, a) ∈ l) : (alookup k l).isSome := by
  induction l with
  | nil => simp at h
  | cons p t ih =>
    obtain ⟨k', a'⟩ := p
    by_cases hk : k' = k
    · simp [alookup, hk]
    · simp [alookup, hk]
      rcases List.mem_cons.mp h with heq | hmem
      · exact absurd (congrArg Prod.fst heq).symm hk
      · exact ih hmem

theorem mem_of_alookup_eq {k : κ} {a : α} {l : List (κ × α)}
    (h : alookup k l = some a) : (k, a) ∈ l := by
  induction l with
  | nil => simp [alookup] at h
  | cons p t ih =>
    obtain ⟨k', a'⟩ := p
    by_cases hk : k' = k
    · subst hk
      simp [alookup] at h
      simp [h]
    · simp [alookup, hk] at h
      exact List.mem_cons_of_mem _ (ih h)

theorem mem_aupsert {p : κ × α} {k : κ} {a : α} {l : List (κ × α)}
    (h : p ∈ aupsert k a l) : p ∈ l ∨ p = (k, a) := by
  induction l with
  | nil => simp [aupsert] at h; simp [h]
  | cons q t ih =>
    obtain ⟨k', a'⟩ := q
    by_cases hk : k' = k
    · simp [aupsert, hk] at h
      rcases h with h | h
      · right; simp [h]
      · left; exact List.mem_cons_of_mem _ h
    · simp only [aupsert, if_neg hk] at h
      rcases List.mem_cons.mp h with h | h
      · left; simp [h]
      · rcases ih h with h | h
        · left; exact List.mem_cons_of_mem _ h
        · right; exact h

end AssocLemmas

theorem VHeap.get_set_self (h : VHeap) (a : Nat) (v : Vocabulary) :
    (h.set a v).get a = some v :=
  alookup_aupsert_self a v h.objs

theorem VHeap.get_set_ne (h : VHeap) {a b : Nat} (hne : a ≠ b) (v : Vocabulary) :
    (h.set a v).get b = h.get b :=
  alookup_aupsert_ne hne v h.objs

theorem VHeap.get_alloc_ne (h : VHeap) (v : Vocabulary) {b : Nat}
    (hb : b ≠ h.next) : (h.alloc v).1.get b = h.get b := by
  show alookup b (h.objs ++ [(h.next, v)]) = alookup b h.objs
  cases hl : alookup b h.objs with
  | some w => exact alookup_append_of_some _ hl
  | none =>
    rw [alookup_append_of_none _ hl]
    simp only [alookup, if_neg (fun h' => hb (Eq.symm h'))]

theorem parseList_ok (srcs : List Source) (v : Vocabulary)
    (hall : ∀ s ∈ srcs, (parseContent s.content).isSome) :
    parseList srcs v =
      (⟨srcs.foldl (fun ss s => aupsert s.source_name s ss) v.sources,
        srcs.foldl (fun es s => addDecls es ((parseContent s.content).getD []))
          v.elements⟩,
       none) := by
  induction srcs generalizing v with
  | nil => simp [parseList]
  | cons s t ih =>
    obtain ⟨ds, hds⟩ := Option.isSome_iff_exists.mp (hall s (by simp))
    simp only [parseList, parse_source_into_vocabulary, hds]
    rw [ih _ (fun s' hs' => hall s' (List.mem_cons_of_mem _ hs'))]
    simp [hds]

theorem parseList_none_iff (srcs : List Source) (v : Vocabulary) :
    (parseList srcs v).2 = none ↔
      ∀ s ∈ srcs, (parseContent s.content).isSome := by
  constructor
  · intro hnone
    induction srcs generalizing v with
    | nil => simp
    | cons s t ih =>
      intro s' hs'
      cases hpc : parseContent s.content with
      | none =>
        simp only [parseList, parse_source_into_vocabulary, hpc] at hnone
        exact absurd hnone (by simp)
      | some ds =>
        rcases List.mem_cons.mp hs' with h | h
        · subst h; simp [hpc]
        · simp only [parseList, parse_source_into_vocabulary, hpc] at hnone
          exact ih _ hnone s' h
  · intro hall
    rw [parseList_ok srcs v hall]

theorem elemsOfContents_eq (v : Vocabulary) :
    elemsOfContents (contentsOf v) =
      (sourceValues v).foldl
        (fun es s => addDecls es ((parseContent s.content).getD [])) [] := by
  unfold elemsOfContents contentsOf
  exact List.foldl_map _ _ _ _

theorem psiv_ok (h : VHeap) (a : Nat) (v : Vocabulary) (srcs : List Source)
    (hget : h.get a = some v)
    (hold : ∀ s ∈ sourceValues v, (parseContent s.content).isSome)
    (hnew : ∀ s ∈ srcs, (parseContent s.content).isSome) :
    parse_sources_into_vocabulary h a srcs =
      ((h.alloc Vocabulary.empty).1.set h.next
         (post_process_vocabulary
           ⟨srcs.foldl (fun ss s => aupsert s.source_name s ss)
              ((sourceValues v).foldl (fun ss s => aupsert s.source_name s ss) []),
             srcs.foldl (fun es s => addDecls es ((parseContent s.content).getD []))
              (elemsOfContents (contentsOf v))⟩
           v),
       Except.ok h.next) := by
  unfold parse_sources_into_vocabulary
  rw [hget]
  simp only []
  rw [parseList_ok (sourceValues v) Vocabulary.empty hold]
  simp only []
  rw [parseList_ok srcs _ hnew]
  simp [VHeap.alloc, elemsOfContents_eq, Vocabulary.empty]

theorem add_string_ok (h : VHeap) (a : Nat) (v : Vocabulary)
    (source_name source_content : String) (now : Nat)
    (hget : h.get a = some v)
    (hold : ∀ s ∈ sourceValues v, (parseContent s.content).isSome)
    (hc : (parseContent source_content).isSome) :
    add_ontology_to_vocabulary_as_string h a source_name source_content now =
      ((h.alloc Vocabulary.empty).1.set h.next
         (addStringResult v source_name source_content now),
       Except.ok h.next) := by
  unfold add_ontology_to_vocabulary_as_string addStringResult
  rw [psiv_ok h a v _ hget hold (by intro s hs; simp at hs; subst hs; exact hc)]
  simp [elemsOfContents_eq]

theorem psiv_get_preserved (h : VHeap) (a : Nat) (srcs : List Source) {b : Nat}
    (hb : b ≠ h.next) :
    (parse_sources_into_vocabulary h a srcs).1.get b = h.get b := by
  have key : ∀ w : Vocabulary,
      ((h.alloc Vocabulary.empty).1.set h.next w).get b = h.get b := by
    intro w
    rw [VHeap.get_set_ne _ (fun he => hb he.symm)]
    exact VHeap.get_alloc_ne _ _ hb
  unfold parse_sources_into_vocabulary
  cases hga : h.get a with
  | none => rfl
  | some v =>
    simp only []
    cases h1 : (parseList (sourceValues v) Vocabulary.empty).2 with
    | some e => exact key _
    | none =>
      cases h2 : (parseList srcs (parseList (sourceValues v) Vocabulary.empty).1).2 with
      | some e => exact key _
      | none => exact key _

theorem psiv_ok_addr (h : VHeap) (a : Nat) (srcs : List Source) {c : Nat}
    (hok : (parse_sources_into_vocabulary h a srcs).2 = Except.ok c) :
    c = h.next := by
  unfold parse_sources_into_vocabulary at hok
  cases hga : h.get a with
  | none => rw [hga] at hok; simp at hok
  | some v =>
    rw [hga] at hok
    simp only [] at hok
    cases h1 : (parseList (sourceValues v) Vocabulary.empty).2 with
    | some e => rw [h1] at hok; simp at hok
    | none =>
      rw [h1] at hok
      cases h2 : (parseList srcs (parseList (sourceValues v) Vocabulary.empty).1).2 with
      | some e => rw [h2] at hok; simp at hok
      | none => rw [h2] at hok; simp at hok; exact hok.symm

theorem add_string_err (h : VHeap) (a : Nat) (v : Vocabulary)
    (source_name source_content : String) (now : Nat)
    (hget : h.get a = some v)
    (hold : ∀ s ∈ sourceValues v, (parseContent s.content).isSome)
    (hbad : parseContent source_content = none) :
    (add_ontology_to_vocabulary_as_string h a source_name source_content now).2 =
      Except.error PyError.typeError := by
  unfold add_ontology_to_vocabulary_as_string parse_sources_into_vocabulary
  rw [hget]
  simp only [parseList_ok (sourceValues v) Vocabulary.empty hold]
  simp [parseList, parse_source_into_vocabulary, hbad]

theorem parseList_fold_of_none (srcs : List Source) (v : Vocabulary)
    (h : (parseList srcs v).2 = none) :
    srcs.foldl
      (fun acc s => acc.bind (fun nv => (parse_source_into_vocabulary s nv).toOption))
      (some v) = some (parseList srcs v).1 := by
  induction srcs generalizing v with
  | nil => simp [parseList]
  | cons s t ih =>
    cases hp : parse_source_into_vocabulary s v with
    | error e => simp [parseList, hp] at h
    | ok v' =>
      simp only [parseList, hp] at h ⊢
      rw [List.foldl_cons,
        show (some v).bind (fun nv => (parse_source_into_vocabulary s nv).toOption)
            = some v' by simp [hp, Except.toOption]]
      exact ih v' h

theorem callOk_true_iff (r : Except PyError Nat) :
    callOk r = true ↔ ∃ c, r = Except.ok c := by
  cases r <;> simp [callOk]

/-- C1: evaluated at a malformed new source, the configurator raises a
`TypeError` — the `except` handler executes `raise ParsingException`, which
instantiates `ParsingException` without its required `value` constructor
argument — instead of a `ParsingException` carrying the causing error. -/
theorem C1_typeerror_instead_of_wrapping :
    (add_ontology_to_vocabulary_as_string ⟨[(0, Vocabulary.empty)], 1⟩ 0 "a"
        "garbage" 5).2 = Except.error PyError.typeError
    ∧ PyError.typeError.isParsingException = false := ⟨rfl, rfl⟩

/-- C2: whenever `__parse_sources_into_vocabulary` succeeds, the vocabulary
object it returns equals the spec's merge protocol: a brand-new empty
vocabulary into which every old source and then the supplied sources are
parsed in order, post-processed exactly once with the new vocabulary as
operand and the original vocabulary as the old reference. -/
theorem C2_merge_protocol (h : VHeap) (a : Nat) (v : Vocabulary)
    (srcs : List Source) (b : Nat)
    (hget : h.get a = some v)
    (hok : (parse_sources_into_vocabulary h a srcs).2 = Except.ok b) :
    (parse_sources_into_vocabulary h a srcs).1.get b = mergeProtocolSpec v srcs := by
  unfold parse_sources_into_vocabulary at hok ⊢
  rw [hget] at hok ⊢
  cases h1 : (parseList (sourceValues v) Vocabulary.empty).2 with
  | some e => simp [h1] at hok
  | none =>
    cases h2 : (parseList srcs (parseList (sourceValues v) Vocabulary.empty).1).2 with
    | some e => simp [h1, h2] at hok
    | none =>
      simp only [h1, h2] at hok ⊢
      obtain rfl : (h.alloc Vocabulary.empty).2 = b := by simpa using hok
      rw [VHeap.get_set_self]
      unfold mergeProtocolSpec
      rw [List.foldl_append]
      rw [parseList_fold_of_none _ _ h1]
      rw [parseList_fold_of_none _ _ h2]
      rfl

/-- Witness for C2 at a concrete vocabulary and source. -/
theorem C2_merge_protocol_witness :
    (parse_sources_into_vocabulary ⟨[(0, ⟨[("a", ⟨"a", "class Animal", 0⟩)], []⟩)], 1⟩
        0 [⟨"b", "sub Dog Animal", 1⟩]).2 = Except.ok 1
    ∧ (parse_sources_into_vocabulary ⟨[(0, ⟨[("a", ⟨"a", "class Animal", 0⟩)], []⟩)], 1⟩
        0 [⟨"b", "sub Dog Animal", 1⟩]).1.get 1 =
      mergeProtocolSpec ⟨[("a", ⟨"a", "class Animal", 0⟩)], []⟩ [⟨"b", "sub Dog Animal", 1⟩] :=
  ⟨rfl, C2_merge_protocol _ 0 _ _ 1 rfl rfl⟩

/-- C3 counterexample: a failing call does raise, but what it raises is not a
`ParsingException` (the handler's `raise ParsingException` fails to construct
one), refuting the claim as stated at this input. -/
theorem C3_counterexample :
    callOk (add_ontology_to_vocabulary_as_string ⟨[(0, Vocabulary.empty)], 1⟩ 0 "b"
        "not wellformed" 7).2 = false
    ∧ raisedParsingException (add_ontology_to_vocabulary_as_string
        ⟨[(0, Vocabulary.empty)], 1⟩ 0 "b" "not wellformed" 7).2 = false := ⟨rfl, rfl⟩

/-- C3 (amended): feeding malformed content to
`add_ontology_to_vocabulary_as_string` raises an exception — a `TypeError`
from the defective `ParsingException` instantiation rather than the wrapping
`ParsingException` — and the caller's vocabulary object, with its sources
mapping and element collections, is unchanged after the call. -/
theorem C3_failure_atomicity (h : VHeap) (a : Nat) (v : Vocabulary)
    (source_name source_content : String) (now : Nat)
    (hget : h.get a = some v) (ha : a ≠ h.next)
    (hold : ∀ s ∈ sourceValues v, (parseContent s.content).isSome)
    (hbad : parseContent source_content = none) :
    (add_ontology_to_vocabulary_as_string h a source_name source_content now).2 =
      Except.error PyError.typeError
    ∧ (add_ontology_to_vocabulary_as_string h a source_name source_content now).1.get a
      = some v := by
  refine ⟨add_string_err h a v _ _ now hget hold hbad, ?_⟩
  show (parse_sources_into_vocabulary h a _).1.get a = some v
  rw [psiv_get_preserved h a _ ha]
  exact hget

/-- Witness for C3 at a concrete heap and malformed content. -/
theorem C3_failure_atomicity_witness :
    (add_ontology_to_vocabulary_as_string ⟨[(0, Vocabulary.empty)], 1⟩ 0 "x"
        "bad bad bad" 9).2 = Except.error PyError.typeError
    ∧ (add_ontology_to_vocabulary_as_string ⟨[(0, Vocabulary.empty)], 1⟩ 0 "x"
        "bad bad bad" 9).1.get 0 = some Vocabulary.empty :=
  C3_failure_atomicity _ 0 _ "x" "bad bad bad" 9 rfl (by decide)
    (by intro s hs; simp [sourceValues, Vocabulary.empty] at hs) rfl

/-- C4: after every call — successful or not — to either configurator entry
point, the vocabulary object passed in is unchanged on the heap, and a
successful call returns the freshly allocated address, never the caller's. -/
theorem C4_nonmutation (fs : List (String × String)) (h : VHeap) (a : Nat)
    (v : Vocabulary) (source_name source_content path : String) (now : Nat)
    (hget : h.get a = some v) (ha : a ≠ h.next) :
    ((add_ontology_to_vocabulary_as_string h a source_name source_content now).1.get a
      = some v)
    ∧ (callOk (add_ontology_to_vocabulary_as_string h a source_name source_content now).2
        = true →
      (add_ontology_to_vocabulary_as_string h a source_name source_content now).2
        = Except.ok h.next ∧ h.next ≠ a)
    ∧ ((add_ontology_to_vocabulary_as_file fs h a path now).1.get a = some v)
    ∧ (callOk (add_ontology_to_vocabulary_as_file fs h a path now).2 = true →
      (add_ontology_to_vocabulary_as_file fs h a path now).2 = Except.ok h.next
        ∧ h.next ≠ a) := by
  refine ⟨?_, ?_, ?_, ?_⟩
  · show (parse_sources_into_vocabulary h a _).1.get a = some v
    rw [psiv_get_preserved h a _ ha]; exact hget
  · intro hcall
    obtain ⟨c, hc⟩ := (callOk_true_iff _).mp hcall
    have := psiv_ok_addr h a _ hc
    subst this
    exact ⟨hc, fun he => ha he.symm⟩
  · cases hfs : alookup path fs with
    | none => simp only [add_ontology_to_vocabulary_as_file, hfs]; exact hget
    | some raw =>
      simp only [add_ontology_to_vocabulary_as_file, hfs]
      rw [psiv_get_preserved h a _ ha]; exact hget
  · intro hcall
    cases hfs : alookup path fs with
    | none =>
      simp only [add_ontology_to_vocabulary_as_file, hfs, callOk] at hcall
      exact Bool.noConfusion hcall
    | some raw =>
      simp only [add_ontology_to_vocabulary_as_file, hfs] at hcall ⊢
      obtain ⟨c, hc⟩ := (callOk_true_iff _).mp hcall
      have := psiv_ok_addr h a _ hc
      subst this
      exact ⟨hc, fun he => ha he.symm⟩

/-- Witness for C4 at concrete successful calls of both entry points. -/
theorem C4_nonmutation_witness :
    ((add_ontology_to_vocabulary_as_string ⟨[(0, Vocabulary.empty)], 1⟩ 0 "a"
        "class Animal" 2).1.get 0 = some Vocabulary.empty)
    ∧ (callOk (add_ontology_to_vocabulary_as_string ⟨[(0, Vocabulary.empty)], 1⟩ 0 "a"
        "class Animal" 2).2 = true →
      (add_ontology_to_vocabulary_as_string ⟨[(0, Vocabulary.empty)], 1⟩ 0 "a"
        "class Animal" 2).2 = Except.ok 1 ∧ (1 : Nat) ≠ 0)
    ∧ ((add_ontology_to_vocabulary_as_file [("f.owl", "class B")]
        ⟨[(0, Vocabulary.empty)], 1⟩ 0 "f.owl" 2).1.get 0 = some Vocabulary.empty)
    ∧ (callOk (add_ontology_to_vocabulary_as_file [("f.owl", "class B")]
        ⟨[(0, Vocabulary.empty)], 1⟩ 0 "f.owl" 2).2 = true →
      (add_ontology_to_vocabulary_as_file [("f.owl", "class B")]
        ⟨[(0, Vocabulary.empty)], 1⟩ 0 "f.owl" 2).2 = Except.ok 1 ∧ (1 : Nat) ≠ 0) :=
  C4_nonmutation [("f.owl", "class B")] ⟨[(0, Vocabulary.empty)], 1⟩ 0
    Vocabulary.empty "a" "class Animal" "f.owl" 2 rfl (by decide)

/-- C8 (amended): `add_ontology_to_vocabulary_as_file` fails with an I/O
error — before any parsing, leaving everything untouched — when the path is
unreadable or absent; otherwise it performs exactly the string variant's
merge protocol on a source whose name is the part of the filename before the
first dot, whose content is the file text with newline characters removed,
and whose timestamp is the current time. -/
theorem C8_file_delegates (fs : List (String × String)) (h : VHeap) (a : Nat)
    (path : String) (now : Nat) :
    add_ontology_to_vocabulary_as_file fs h a path now =
      match alookup path fs with
      | none => (h, Except.error PyError.ioError)
      | some raw =>
        add_ontology_to_vocabulary_as_string h a
          (filenameStem path) (stripNewlines raw) now := by
  unfold add_ontology_to_vocabulary_as_file add_ontology_to_vocabulary_as_string
  cases alookup path fs <;> rfl

/-- C8 counterexample: for a file `d/a.b.ttl` whose text contains a newline,
the stored source is named `a` — the part before the first dot, not the
filename without extension `a.b` — and its stored content has the newline
removed, so it differs from the raw text. -/
theorem C8_counterexample :
    (alookup "a.b" (sourcesAt (add_ontology_to_vocabulary_as_file
        [("d/a.b.ttl", "class X;\nclass Y")] ⟨[(0, Vocabulary.empty)], 1⟩ 0
        "d/a.b.ttl" 3).1 1) = none)
    ∧ ((alookup "a" (sourcesAt (add_ontology_to_vocabulary_as_file
        [("d/a.b.ttl", "class X;\nclass Y")] ⟨[(0, Vocabulary.empty)], 1⟩ 0
        "d/a.b.ttl" 3).1 1)).map Source.content = some "class X;class Y")
    ∧ ("class X;class Y" ≠ "class X;\nclass Y") := ⟨rfl, rfl, by decide⟩

theorem elementsAt_set_self (h : VHeap) (a : Nat) (v : Vocabulary) :
    elementsAt (h.set a v) a = v.elements := by
  unfold elementsAt
  rw [VHeap.get_set_self]

theorem alookup_post_process (w old : Vocabulary) (id : String) :
    alookup id (post_process_vocabulary w old).elements
      = (alookup id w.elements).map (fun e => carrySetting old id e) :=
  alookup_map id (fun i e => carrySetting old i e) w.elements

theorem post_process_setting (w old : Vocabulary) (id : String) (e1 : Element)
    (s : String)
    (he1 : alookup id old.elements = some e1) (hs : e1.setting = some s)
    (hpres : (alookup id (post_process_vocabulary w old).elements).isSome) :
    (alookup id (post_process_vocabulary w old).elements).map Element.setting
      = some (some s) := by
  rw [alookup_post_process] at hpres ⊢
  cases ho : alookup id w.elements with
  | none => simp [ho] at hpres
  | some e0 => simp [ho, carrySetting, he1, hs]

/-- C5: carry-forward — when adding a new source to a vocabulary whose
element `id` carries a user-assigned setting `s`, the successful result still
contains `id` with the same setting `s`; the correspondence used is exactly
identifier equality. -/
theorem C5_carry_forward (h : VHeap) (a : Nat) (v : Vocabulary)
    (source_name source_content : String) (now : Nat) (id : String)
    (e1 : Element) (s : String)
    (hget : h.get a = some v)
    (hold : ∀ s' ∈ sourceValues v, (parseContent s'.content).isSome)
    (hc : (parseContent source_content).isSome)
    (he1 : alookup id v.elements = some e1) (hs : e1.setting = some s)
    (hpres : (alookup id (elementsAt
        (add_ontology_to_vocabulary_as_string h a source_name source_content now).1
        h.next)).isSome) :
    (add_ontology_to_vocabulary_as_string h a source_name source_content now).2
      = Except.ok h.next
    ∧ (alookup id (elementsAt
        (add_ontology_to_vocabulary_as_string h a source_name source_content now).1
        h.next)).map Element.setting = some (some s) := by
  rw [add_string_ok h a v _ _ now hget hold hc] at hpres ⊢
  refine ⟨rfl, ?_⟩
  rw [elementsAt_set_self] at hpres ⊢
  exact post_process_setting _ v id e1 s he1 hs hpres

/-- Witness for C5 at a concrete vocabulary with a user-assigned setting. -/
theorem C5_carry_forward_witness :
    (add_ontology_to_vocabulary_as_string
        ⟨[(0, ⟨[("a", ⟨"a", "class E", 0⟩)], [("E", ⟨[], some "s"⟩)]⟩)], 1⟩ 0
        "b" "class F" 1).2 = Except.ok 1
    ∧ (alookup "E" (elementsAt (add_ontology_to_vocabulary_as_string
        ⟨[(0, ⟨[("a", ⟨"a", "class E", 0⟩)], [("E", ⟨[], some "s"⟩)]⟩)], 1⟩ 0
        "b" "class F" 1).1 1)).map Element.setting = some (some "s") :=
  C5_carry_forward _ 0 _ "b" "class F" 1 "E" ⟨[], some "s"⟩ "s" rfl
    (by decide) (by decide) rfl rfl (by decide)

theorem carrySetting_congr (v1 v2 : Vocabulary)
    (hset : settingsOf v1 = settingsOf v2) (id : String) (e : Element) :
    carrySetting v1 id e = carrySetting v2 id e := by
  have k1 : alookup id (settingsOf v1)
      = (alookup id v1.elements).map (fun e => e.setting) :=
    alookup_map id (fun _ (e : Element) => e.setting) v1.elements
  have k2 : alookup id (settingsOf v2)
      = (alookup id v2.elements).map (fun e => e.setting) :=
    alookup_map id (fun _ (e : Element) => e.setting) v2.elements
  have hmap : (alookup id v1.elements).map (fun e => e.setting)
      = (alookup id v2.elements).map (fun e => e.setting) := by
    rw [← k1, ← k2, hset]
  unfold carrySetting
  cases hv1 : alookup id v1.elements with
  | none =>
    cases hv2 : alookup id v2.elements with
    | none => rfl
    | some o => rw [hv1, hv2] at hmap; simp at hmap
  | some o1 =>
    cases hv2 : alookup id v2.elements with
    | none => rw [hv1, hv2] at hmap; simp at hmap
    | some o2 =>
      rw [hv1, hv2] at hmap
      simp at hmap
      simp [hmap]

theorem post_process_congr (w v1 v2 : Vocabulary)
    (hset : settingsOf v1 = settingsOf v2) :
    post_process_vocabulary w v1 = post_process_vocabulary w v2 := by
  unfold post_process_vocabulary
  have : (fun (p : String × Element) => (p.1, carrySetting v1 p.1 p.2))
      = (fun (p : String × Element) => (p.1, carrySetting v2 p.1 p.2)) :=
    funext fun p => by rw [carrySetting_congr v1 v2 hset]
  rw [this]

/-- C9: purity — the value-level outcome of
`add_ontology_to_vocabulary_as_string` is a function of the prior
vocabulary's sources mapping, its user-assigned settings, and the new
source's name, content and timestamp alone; no other state influences it, so
two calls agreeing on these inputs return equal vocabularies (or equal
errors). -/
theorem C9_purity (h1 h2 : VHeap) (a1 a2 : Nat) (v1 v2 : Vocabulary)
    (source_name source_content : String) (now : Nat)
    (hg1 : h1.get a1 = some v1) (hg2 : h2.get a2 = some v2)
    (hsrc : v1.sources = v2.sources)
    (hset : settingsOf v1 = settingsOf v2) :
    stringCallResult h1 a1 source_name source_content now
      = stringCallResult h2 a2 source_name source_content now := by
  have sv : sourceValues v2 = sourceValues v1 := by
    unfold sourceValues; rw [hsrc]
  unfold stringCallResult add_ontology_to_vocabulary_as_string
    parse_sources_into_vocabulary
  simp only [hg1, hg2]
  rw [sv]
  cases hp1 : (parseList (sourceValues v1) Vocabulary.empty).2 with
  | some e => simp [hp1]
  | none =>
    cases hp2 : (parseList [⟨source_name, source_content, now⟩]
        (parseList (sourceValues v1) Vocabulary.empty).1).2 with
    | some e => simp [hp1, hp2]
    | none =>
      simp only [hp1, hp2]
      simp only [VHeap.get_set_self]
      rw [post_process_congr _ v1 v2 hset]

/-- Witness for C9 at two different heaps and vocabularies agreeing on
sources and settings. -/
theorem C9_purity_witness :
    stringCallResult ⟨[(0, ⟨[("a", ⟨"a", "class E", 0⟩)],
        [("E", ⟨["x"], some "s"⟩)]⟩)], 1⟩ 0 "b" "class F" 4
      = stringCallResult ⟨[(7, Vocabulary.empty), (5, ⟨[("a", ⟨"a", "class E", 0⟩)],
        [("E", ⟨[], some "s"⟩)]⟩)], 9⟩ 5 "b" "class F" 4 :=
  C9_purity _ _ 0 5 ⟨[("a", ⟨"a", "class E", 0⟩)], [("E", ⟨["x"], some "s"⟩)]⟩
    ⟨[("a", ⟨"a", "class E", 0⟩)], [("E", ⟨[], some "s"⟩)]⟩ "b" "class F" 4
    rfl rfl rfl rfl

theorem contains_true_iff (l : List String) (x : String) :
    l.contains x = true ↔ x ∈ l :=
  List.elem_iff

theorem mem_addFacts (old new : List String) (x : String) :
    x ∈ addFacts old new ↔ x ∈ old ∨ x ∈ new := by
  induction new generalizing old with
  | nil => simp [addFacts]
  | cons n t ih =>
    have step : addFacts old (n :: t)
        = addFacts (if old.contains n then old else old ++ [n]) t := rfl
    rw [step]
    by_cases hn : old.contains n
    · rw [if_pos hn, ih]
      have hmem : n ∈ old := (contains_true_iff old n).mp hn
      constructor
      · rintro (h | h)
        · exact Or.inl h
        · exact Or.inr (List.mem_cons_of_mem _ h)
      · rintro (h | h)
        · exact Or.inl h
        · rcases List.mem_cons.mp h with h | h
          · exact Or.inl (h ▸ hmem)
          · exact Or.inr h
    · rw [if_neg hn, ih]
      simp only [List.mem_append, List.mem_singleton, List.mem_cons]
      tauto

theorem addFacts_of_subset {old new : List String}
    (h : ∀ f ∈ new, f ∈ old) : addFacts old new = old := by
  induction new generalizing old with
  | nil => rfl
  | cons n t ih =>
    have step : addFacts old (n :: t)
        = addFacts (if old.contains n then old else old ++ [n]) t := rfl
    rw [step, if_pos ((contains_true_iff old n).mpr (h n (by simp)))]
    exact ih (fun f hf => h f (List.mem_cons_of_mem _ hf))

theorem alookup_addDecl (es : List (String × Element)) (d : Decl) (id : String) :
    alookup id (addDecl es d) =
      if declId d = id then
        some (match alookup id es with
          | some e => ⟨addFacts e.facts (declFacts d), e.setting⟩
          | none => ⟨declFacts d, none⟩)
      else alookup id es := by
  unfold addDecl
  by_cases hd : declId d = id
  · subst hd
    cases halo : alookup (declId d) es with
    | some e =>
      rw [if_pos rfl, alookup_aupsert_self]
    | none =>
      rw [if_pos rfl, alookup_append_of_none _ halo]
      simp [alookup]
  · cases halo : alookup (declId d) es with
    | some e =>
      rw [if_neg hd, alookup_aupsert_ne hd]
    | none =>
      rw [if_neg hd]
      cases h2 : alookup id es with
      | some e2 => exact alookup_append_of_some _ h2
      | none =>
        rw [alookup_append_of_none _ h2]
        simp [alookup, hd]

theorem alookup_addDecls_isSome (ds : List Decl) (es : List (String × Element))
    (id : String) :
    (alookup id (addDecls es ds)).isSome
      ↔ (alookup id es).isSome ∨ id ∈ ds.map declId := by
  induction ds generalizing es with
  | nil => simp [addDecls]
  | cons d t ih =>
    have step : addDecls es (d :: t) = addDecls (addDecl es d) t := rfl
    rw [step, ih]
    rw [alookup_addDecl]
    by_cases hd : declId d = id
    · simp [hd]
    · have hd' : ¬ id = declId d := fun h => hd h.symm
      simp [hd, hd']

theorem setting_none_addDecl (es : List (String × Element)) (d : Decl)
    (hinv : ∀ p ∈ es, (p.2 : Element).setting = none) :
    ∀ p ∈ addDecl es d, (p.2 : Element).setting = none := by
  intro p hp
  unfold addDecl at hp
  cases halo : alookup (declId d) es with
  | some e =>
    rw [halo] at hp
    rcases mem_aupsert hp with hmem | heq
    · exact hinv p hmem
    · have := hinv _ (mem_of_alookup_eq halo)
      rw [heq]
      exact this
  | none =>
    rw [halo] at hp
    rcases List.mem_append.mp hp with hmem | hmem
    · exact hinv p hmem
    · simp at hmem
      rw [hmem]

theorem setting_none_addDecls (ds : List Decl) (es : List (String × Element))
    (hinv : ∀ p ∈ es, (p.2 : Element).setting = none) :
    ∀ p ∈ addDecls es ds, (p.2 : Element).setting = none := by
  induction ds generalizing es with
  | nil => exact hinv
  | cons d t ih => exact ih _ (setting_none_addDecl es d hinv)

theorem setting_none_elemsFold (cs : List String) (es : List (String × Element))
    (hinv : ∀ p ∈ es, (p.2 : Element).setting = none) :
    ∀ p ∈ cs.foldl (fun es c => addDecls es ((parseContent c).getD [])) es,
      (p.2 : Element).setting = none := by
  induction cs generalizing es with
  | nil => exact hinv
  | cons c t ih => exact ih _ (setting_none_addDecls _ es hinv)

theorem setting_none_elemsOfContents (cs : List String) :
    ∀ p ∈ elemsOfContents cs, (p.2 : Element).setting = none :=
  setting_none_elemsFold cs [] (by simp)

theorem addDecl_applied_eq (es : List (String × Element)) (d : Decl) (e : Element)
    (he : alookup (declId d) es = some e) (hsub : ∀ f ∈ declFacts d, f ∈ e.facts) :
    addDecl es d = es := by
  unfold addDecl
  rw [he]
  show aupsert (declId d) ⟨addFacts e.facts (declFacts d), e.setting⟩ es = es
  rw [addFacts_of_subset hsub]
  exact aupsert_of_alookup_eq he

theorem addDecl_mono (es : List (String × Element)) (d : Decl) (id : String)
    (e : Element) (he : alookup id es = some e) :
    ∃ e', alookup id (addDecl es d) = some e'
      ∧ e'.setting = e.setting ∧ ∀ f ∈ e.facts, f ∈ e'.facts := by
  rw [alookup_addDecl]
  by_cases hd : declId d = id
  · rw [if_pos hd, he]
    exact ⟨_, rfl, rfl, fun f hf => (mem_addFacts _ _ f).mpr (Or.inl hf)⟩
  · rw [if_neg hd, he]
    exact ⟨e, rfl, rfl, fun f hf => hf⟩

theorem addDecls_mono (ds : List Decl) (es : List (String × Element)) (id : String)
    (e : Element) (he : alookup id es = some e) :
    ∃ e', alookup id (addDecls es ds) = some e'
      ∧ e'.setting = e.setting ∧ ∀ f ∈ e.facts, f ∈ e'.facts := by
  induction ds generalizing es e with
  | nil => exact ⟨e, he, rfl, fun f hf => hf⟩
  | cons d t ih =>
    obtain ⟨e1, he1, hs1, hf1⟩ := addDecl_mono es d id e he
    obtain ⟨e2, he2, hs2, hf2⟩ := ih _ _ he1
    exact ⟨e2, he2, hs2.trans hs1, fun f hf => hf2 f (hf1 f hf)⟩

theorem addDecl_establishes (es : List (String × Element)) (d : Decl) :
    ∃ e, alookup (declId d) (addDecl es d) = some e
      ∧ ∀ f ∈ declFacts d, f ∈ e.facts := by
  rw [alookup_addDecl, if_pos rfl]
  cases halo : alookup (declId d) es with
  | some e =>
    exact ⟨_, rfl, fun f hf => (mem_addFacts _ _ f).mpr (Or.inr hf)⟩
  | none => exact ⟨_, rfl, fun f hf => hf⟩

theorem addDecls_applied (ds : List Decl) (es : List (String × Element)) :
    ∀ d ∈ ds, ∃ e, alookup (declId d) (addDecls es ds) = some e
      ∧ ∀ f ∈ declFacts d, f ∈ e.facts := by
  induction ds generalizing es with
  | nil => simp
  | cons d0 t ih =>
    intro d hd
    have step : addDecls es (d0 :: t) = addDecls (addDecl es d0) t := rfl
    rcases List.mem_cons.mp hd with heq | hmem
    · subst heq
      obtain ⟨e, he, hf⟩ := addDecl_establishes es d
      obtain ⟨e', he', _, hf'⟩ := addDecls_mono t _ _ _ he
      exact ⟨e', step ▸ he', fun f hff => hf' f (hf f hff)⟩
    · obtain ⟨e, he, hf⟩ := ih (addDecl es d0) d hmem
      exact ⟨e, step ▸ he, hf⟩

theorem addDecls_noop (ds : List Decl) (es : List (String × Element))
    (h : ∀ d ∈ ds, ∃ e, alookup (declId d) es = some e
      ∧ ∀ f ∈ declFacts d, f ∈ e.facts) :
    addDecls es ds = es := by
  induction ds with
  | nil => rfl
  | cons d t ih =>
    obtain ⟨e, he, hf⟩ := h d (by simp)
    have step : addDecls es (d :: t) = addDecls (addDecl es d) t := rfl
    rw [step, addDecl_applied_eq es d e he hf]
    exact ih (fun d' hd' => h d' (List.mem_cons_of_mem _ hd'))

theorem addDecls_addDecls_self (es : List (String × Element)) (ds : List Decl) :
    addDecls (addDecls es ds) ds = addDecls es ds :=
  addDecls_noop ds _ (addDecls_applied ds es)

theorem foldUpsert_rebuild (l acc : List (String × Source))
    (hnd : (l.map Prod.fst).Nodup)
    (hwf : ∀ p ∈ l, p.1 = p.2.source_name)
    (hacc : ∀ p ∈ l, alookup p.1 acc = none) :
    (l.map Prod.snd).foldl (fun ss s => aupsert s.source_name s ss) acc
      = acc ++ l := by
  induction l generalizing acc with
  | nil => simp
  | cons p t ih =>
    obtain ⟨k, s⟩ := p
    have hk : k = s.source_name := hwf (k, s) (by simp)
    have hnd' : (t.map Prod.fst).Nodup := (List.nodup_cons.mp (by simpa using hnd)).2
    have hknot : k ∉ t.map Prod.fst := (List.nodup_cons.mp (by simpa using hnd)).1
    have h1 : aupsert s.source_name s acc = acc ++ [(k, s)] := by
      rw [← hk]
      exact aupsert_of_alookup_none (hacc (k, s) (by simp))
    simp only [List.map_cons, List.foldl_cons]
    rw [h1]
    have hacc' : ∀ q ∈ t, alookup q.1 (acc ++ [(k, s)]) = none := by
      intro q hq
      rw [alookup_append_of_none _ (hacc q (List.mem_cons_of_mem _ hq))]
      have hne : ¬ k = q.1 := fun he =>
        hknot (he ▸ List.mem_map_of_mem Prod.fst hq)
      simp [alookup, hne]
    rw [ih (acc ++ [(k, s)]) hnd'
      (fun q hq => hwf q (List.mem_cons_of_mem _ hq)) hacc']
    rw [List.append_assoc]
    rfl

theorem rebuild_sources (v : Vocabulary)
    (hnd : (v.sources.map Prod.fst).Nodup)
    (hwf : ∀ p ∈ v.sources, p.1 = p.2.source_name) :
    (sourceValues v).foldl (fun ss s => aupsert s.source_name s ss) []
      = v.sources := by
  have := foldUpsert_rebuild v.sources [] hnd hwf (fun p _ => rfl)
  simpa [sourceValues] using this

theorem contents_aupsert_same (l : List (String × Source)) (k : String)
    (N s0 : Source) (h : alookup k l = some s0) (hc : s0.content = N.content) :
    (aupsert k N l).map (fun p => p.2.content)
      = l.map (fun p => p.2.content) := by
  induction l with
  | nil => simp [alookup] at h
  | cons q t ih =>
    obtain ⟨k', a'⟩ := q
    by_cases hk : k' = k
    · subst hk
      have ha : a' = s0 := by simpa [alookup] using h
      subst ha
      have hu : aupsert k' N ((k', a') :: t) = (k', N) :: t := by simp [aupsert]
      rw [hu]
      simp only [List.map_cons]
      rw [← hc]
    · have h' : alookup k t = some s0 := by simpa [alookup, hk] using h
      have hu : aupsert k N ((k', a') :: t) = (k', a') :: aupsert k N t := by
        simp [aupsert, hk]
      rw [hu]
      simp only [List.map_cons]
      rw [ih h']

theorem contentsOf_eq (v : Vocabulary) :
    contentsOf v = v.sources.map (fun p => p.2.content) := by
  unfold contentsOf sourceValues
  rw [List.map_map]
  rfl

theorem elemsOfContents_append_one (cs : List String) (c : String) :
    elemsOfContents (cs ++ [c])
      = addDecls (elemsOfContents cs) ((parseContent c).getD []) := by
  unfold elemsOfContents
  rw [List.foldl_append]
  rfl

theorem carry_pp_of_none (S : List (String × Source))
    (E : List (String × Element)) (v : Vocabulary) (id : String) (e e0 : Element)
    (hn0 : e0.setting = none) (he : e.setting = none)
    (he0 : alookup id E = some e0) :
    carrySetting (post_process_vocabulary ⟨S, E⟩ v) id e = carrySetting v id e := by
  obtain ⟨fs, st⟩ := e
  have hst : st = none := he
  subst hst
  have hpp : alookup id (post_process_vocabulary ⟨S, E⟩ v).elements
      = some (carrySetting v id e0) := by
    rw [alookup_post_process]
    show (alookup id E).map _ = _
    rw [he0]
    rfl
  unfold carrySetting
  rw [hpp]
  cases hv : alookup id v.elements with
  | some ov => simp [carrySetting, hv]
  | none => simp [carrySetting, hv, hn0]

theorem addStringResult_sources (v : Vocabulary) (n c : String) (t : Nat)
    (hnd : (v.sources.map Prod.fst).Nodup)
    (hwf : ∀ p ∈ v.sources, p.1 = p.2.source_name) :
    (addStringResult v n c t).sources = aupsert n ⟨n, c, t⟩ v.sources := by
  show aupsert n ⟨n, c, t⟩
      ((sourceValues v).foldl (fun ss s => aupsert s.source_name s ss) [])
    = aupsert n ⟨n, c, t⟩ v.sources
  rw [rebuild_sources v hnd hwf]

theorem addStringResult_elements (v : Vocabulary) (n c : String) (t : Nat) :
    (addStringResult v n c t).elements
      = (addDecls (elemsOfContents (contentsOf v)) ((parseContent c).getD [])).map
          (fun p => (p.1, carrySetting v p.1 p.2)) := rfl

theorem addStringResult_idem (v : Vocabulary) (n c : String) (t1 t2 : Nat)
    (hnd : (v.sources.map Prod.fst).Nodup)
    (hwf : ∀ p ∈ v.sources, p.1 = p.2.source_name)
    (hname : ∀ s0, alookup n v.sources = some s0 → s0.content = c) :
    (addStringResult (addStringResult v n c t1) n c t2).elements
      = (addStringResult v n c t1).elements := by
  have hS1 : (addStringResult v n c t1).sources = aupsert n ⟨n, c, t1⟩ v.sources :=
    addStringResult_sources v n c t1 hnd hwf
  have hco : contentsOf (addStringResult v n c t1) = contentsOf v ++ [c]
      ∨ contentsOf (addStringResult v n c t1) = contentsOf v := by
    cases hn : alookup n v.sources with
    | none =>
      left
      rw [contentsOf_eq, hS1, aupsert_of_alookup_none hn, List.map_append,
        ← contentsOf_eq v]
      rfl
    | some s0 =>
      right
      rw [contentsOf_eq, hS1,
        contents_aupsert_same v.sources n _ s0 hn (hname s0 hn),
        ← contentsOf_eq v]
  have hE : addDecls (elemsOfContents (contentsOf (addStringResult v n c t1)))
        ((parseContent c).getD [])
      = addDecls (elemsOfContents (contentsOf v)) ((parseContent c).getD []) := by
    rcases hco with hco | hco
    · rw [hco, elemsOfContents_append_one, addDecls_addDecls_self]
    · rw [hco]
  rw [addStringResult_elements, addStringResult_elements, hE]
  unfold addStringResult
  apply List.map_congr_left
  intro p hp
  have hset : (p.2 : Element).setting = none :=
    setting_none_addDecls _ _ (setting_none_elemsOfContents _) p hp
  have hsome : (alookup p.1 (addDecls (elemsOfContents (contentsOf v))
      ((parseContent c).getD []))).isSome :=
    alookup_isSome_of_mem hp
  obtain ⟨e0, he0⟩ := Option.isSome_iff_exists.mp hsome
  have hn0 : e0.setting = none :=
    setting_none_addDecls _ _ (setting_none_elemsOfContents _) _
      (mem_of_alookup_eq he0)
  rw [carry_pp_of_none _ _ v p.1 p.2 e0 hn0 hset he0]

/-- C6 counterexample: starting from a vocabulary that already holds source
`a` with content `class X`, adding (`a`, `class Y`) once yields the element
set {X, Y} — the displaced old content is still re-parsed during the rebuild
— while adding it a second time yields only {Y}; the element sets differ, so
idempotence fails as stated. -/
theorem C6_counterexample :
    elementsAt (add_ontology_to_vocabulary_as_string
        (add_ontology_to_vocabulary_as_string
          ⟨[(0, ⟨[("a", ⟨"a", "class X", 0⟩)], []⟩)], 1⟩ 0 "a" "class Y" 1).1
        1 "a" "class Y" 2).1 2
      ≠ elementsAt (add_ontology_to_vocabulary_as_string
        ⟨[(0, ⟨[("a", ⟨"a", "class X", 0⟩)], []⟩)], 1⟩ 0 "a" "class Y" 1).1 1 := by
  decide

/-- C6 (amended): adding the same (source_name, source_content) twice in a
row — the second call operating on the vocabulary returned by the first —
yields a vocabulary with element collections identical to those obtained by
adding it once, provided the vocabulary does not already contain a source
under that name with different content. -/
theorem C6_idempotence (h : VHeap) (a : Nat) (v : Vocabulary)
    (source_name source_content : String) (t1 t2 : Nat)
    (hget : h.get a = some v)
    (hnd : (v.sources.map Prod.fst).Nodup)
    (hwf : ∀ p ∈ v.sources, p.1 = p.2.source_name)
    (hold : ∀ s' ∈ sourceValues v, (parseContent s'.content).isSome)
    (hc : (parseContent source_content).isSome)
    (hname : ∀ s0, alookup source_name v.sources = some s0 →
      s0.content = source_content) :
    (add_ontology_to_vocabulary_as_string h a source_name source_content t1).2
      = Except.ok h.next
    ∧ (add_ontology_to_vocabulary_as_string
        (add_ontology_to_vocabulary_as_string h a source_name source_content t1).1
        h.next source_name source_content t2).2
      = Except.ok
        ((add_ontology_to_vocabulary_as_string h a source_name source_content t1).1).next
    ∧ elementsAt (add_ontology_to_vocabulary_as_string
        (add_ontology_to_vocabulary_as_string h a source_name source_content t1).1
        h.next source_name source_content t2).1
        ((add_ontology_to_vocabulary_as_string h a source_name source_content t1).1).next
      = elementsAt
        (add_ontology_to_vocabulary_as_string h a source_name source_content t1).1
        h.next := by
  have e1 := add_string_ok h a v source_name source_content t1 hget hold hc
  have hget1 : ((h.alloc Vocabulary.empty).1.set h.next
      (addStringResult v source_name source_content t1)).get h.next
      = some (addStringResult v source_name source_content t1) :=
    VHeap.get_set_self _ _ _
  have hold1 : ∀ s' ∈ sourceValues (addStringResult v source_name source_content t1),
      (parseContent s'.content).isSome := by
    intro s' hs'
    unfold sourceValues at hs'
    rw [addStringResult_sources v _ _ _ hnd hwf] at hs'
    obtain ⟨p, hp, hps⟩ := List.mem_map.mp hs'
    rcases mem_aupsert hp with hmem | heq
    · refine hold s' ?_
      unfold sourceValues
      exact hps ▸ List.mem_map_of_mem Prod.snd hmem
    · rw [← hps, heq]
      exact hc
  have e2 := add_string_ok
    ((h.alloc Vocabulary.empty).1.set h.next
      (addStringResult v source_name source_content t1))
    h.next (addStringResult v source_name source_content t1)
    source_name source_content t2 hget1 hold1 hc
  refine ⟨by rw [e1], ?_, ?_⟩
  · simp only [e1]
    rw [e2]
  · simp only [e1]
    simp only [e2]
    rw [elementsAt_set_self, elementsAt_set_self]
    exact addStringResult_idem v source_name source_content t1 t2 hnd hwf hname

/-- Witness for C6 at a concrete vocabulary and a fresh source name. -/
theorem C6_idempotence_witness :
    (add_ontology_to_vocabulary_as_string ⟨[(0, ⟨[("a", ⟨"a", "class A", 0⟩)], []⟩)], 1⟩
        0 "b" "class B" 1).2 = Except.ok 1
    ∧ (add_ontology_to_vocabulary_as_string
        (add_ontology_to_vocabulary_as_string ⟨[(0, ⟨[("a", ⟨"a", "class A", 0⟩)], []⟩)], 1⟩
          0 "b" "class B" 1).1 1 "b" "class B" 2).2
      = Except.ok ((add_ontology_to_vocabulary_as_string
          ⟨[(0, ⟨[("a", ⟨"a", "class A", 0⟩)], []⟩)], 1⟩ 0 "b" "class B" 1).1).next
    ∧ elementsAt (add_ontology_to_vocabulary_as_string
        (add_ontology_to_vocabulary_as_string ⟨[(0, ⟨[("a", ⟨"a", "class A", 0⟩)], []⟩)], 1⟩
          0 "b" "class B" 1).1 1 "b" "class B" 2).1
        ((add_ontology_to_vocabulary_as_string
          ⟨[(0, ⟨[("a", ⟨"a", "class A", 0⟩)], []⟩)], 1⟩ 0 "b" "class B" 1).1).next
      = elementsAt (add_ontology_to_vocabulary_as_string
          ⟨[(0, ⟨[("a", ⟨"a", "class A", 0⟩)], []⟩)], 1⟩ 0 "b" "class B" 1).1 1 :=
  C6_idempotence ⟨[(0, ⟨[("a", ⟨"a", "class A", 0⟩)], []⟩)], 1⟩ 0
    ⟨[("a", ⟨"a", "class A", 0⟩)], []⟩ "b" "class B" 1 2 rfl (by decide)
    (by decide) (by decide) (by decide)
    (fun s0 hs0 => Option.noConfusion hs0)

theorem mem_factsAt_addDecl (es : List (String × Element)) (d : Decl)
    (id : String) (f : String) :
    f ∈ factsAt id (addDecl es d)
      ↔ f ∈ factsAt id es ∨ (declId d = id ∧ f ∈ declFacts d) := by
  unfold factsAt
  rw [alookup_addDecl]
  by_cases hd : declId d = id
  · rw [if_pos hd]
    cases he : alookup id es with
    | some e => simp [mem_addFacts, hd]
    | none => simp [hd]
  · rw [if_neg hd]
    simp [hd]

theorem mem_factsAt_addDecls (ds : List Decl) (es : List (String × Element))
    (id : String) (f : String) :
    f ∈ factsAt id (addDecls es ds)
      ↔ f ∈ factsAt id es ∨ ∃ d ∈ ds, declId d = id ∧ f ∈ declFacts d := by
  induction ds generalizing es with
  | nil => simp [addDecls]
  | cons d t ih =>
    have step : addDecls es (d :: t) = addDecls (addDecl es d) t := rfl
    rw [step, ih, mem_factsAt_addDecl]
    constructor
    · rintro ((hh | ⟨hd, hf⟩) | ⟨d', hd', h1, h2⟩)
      · exact Or.inl hh
      · exact Or.inr ⟨d, by simp, hd, hf⟩
      · exact Or.inr ⟨d', List.mem_cons_of_mem _ hd', h1, h2⟩
    · rintro (hh | ⟨d', hd', h1, h2⟩)
      · exact Or.inl (Or.inl hh)
      · rcases List.mem_cons.mp hd' with heq | hmem
        · exact Or.inl (Or.inr ⟨heq ▸ h1, heq ▸ h2⟩)
        · exact Or.inr ⟨d', hmem, h1, h2⟩

theorem alookup_carrymap_isSome (E : List (String × Element)) (old : Vocabulary)
    (id : String) :
    (alookup id (E.map (fun p => (p.1, carrySetting old p.1 p.2)))).isSome
      = (alookup id E).isSome := by
  rw [alookup_map]
  cases alookup id E <;> rfl

theorem factsAt_carrymap (E : List (String × Element)) (old : Vocabulary)
    (id : String) :
    factsAt id (E.map (fun p => (p.1, carrySetting old p.1 p.2)))
      = factsAt id E := by
  unfold factsAt
  rw [alookup_map]
  cases alookup id E with
  | none => rfl
  | some e =>
    show (carrySetting old id e).facts = e.facts
    unfold carrySetting
    cases alookup id old.elements <;> rfl

theorem subsetB_iff (xs ys : List String) :
    subsetB xs ys = true ↔ ∀ x ∈ xs, x ∈ ys := by
  unfold subsetB
  simp only [List.all_eq_true, contains_true_iff]

theorem elemSubB_of (es fs : List (String × Element))
    (hpres : ∀ id, (alookup id es).isSome = true → (alookup id fs).isSome = true)
    (hfacts : ∀ id f, f ∈ factsAt id es ↔ f ∈ factsAt id fs) :
    elemSubB es fs = true := by
  unfold elemSubB
  rw [List.all_eq_true]
  intro p hp
  have hs : (alookup p.1 es).isSome := alookup_isSome_of_mem hp
  obtain ⟨e2, he2⟩ := Option.isSome_iff_exists.mp (hpres p.1 hs)
  rw [he2]
  have hfe : e2.facts = factsAt p.1 fs := by unfold factsAt; rw [he2]
  rw [Bool.and_eq_true, subsetB_iff, subsetB_iff, hfe]
  exact ⟨fun x hx => (hfacts p.1 x).mp hx, fun x hx => (hfacts p.1 x).mpr hx⟩

theorem sameElemsB_of (es fs : List (String × Element))
    (hpres : ∀ id, (alookup id es).isSome = true ↔ (alookup id fs).isSome = true)
    (hfacts : ∀ id f, f ∈ factsAt id es ↔ f ∈ factsAt id fs) :
    sameElemsB es fs = true := by
  unfold sameElemsB
  rw [Bool.and_eq_true]
  exact ⟨elemSubB_of es fs (fun id hh => (hpres id).mp hh) hfacts,
    elemSubB_of fs es (fun id hh => (hpres id).mpr hh)
      (fun id f => (hfacts id f).symm)⟩

theorem addDecls_append (es : List (String × Element)) (ds1 ds2 : List Decl) :
    addDecls es (ds1 ++ ds2) = addDecls (addDecls es ds1) ds2 := by
  unfold addDecls
  rw [List.foldl_append]

theorem hold_addStringResult (v : Vocabulary) (n c : String) (t : Nat)
    (hnd : (v.sources.map Prod.fst).Nodup)
    (hwf : ∀ p ∈ v.sources, p.1 = p.2.source_name)
    (hold : ∀ s' ∈ sourceValues v, (parseContent s'.content).isSome)
    (hc : (parseContent c).isSome) :
    ∀ s' ∈ sourceValues (addStringResult v n c t),
      (parseContent s'.content).isSome := by
  intro s' hs'
  unfold sourceValues at hs'
  rw [addStringResult_sources v _ _ _ hnd hwf] at hs'
  obtain ⟨p, hp, hps⟩ := List.mem_map.mp hs'
  rcases mem_aupsert hp with hmem | heq
  · refine hold s' ?_
    unfold sourceValues
    exact hps ▸ List.mem_map_of_mem Prod.snd hmem
  · rw [← hps, heq]
    exact hc

theorem addString_twice_elements (v : Vocabulary) (n1 c1 n2 c2 : String)
    (t1 t2 : Nat)
    (hnd : (v.sources.map Prod.fst).Nodup)
    (hwf : ∀ p ∈ v.sources, p.1 = p.2.source_name)
    (hfresh1 : alookup n1 v.sources = none) :
    (addStringResult (addStringResult v n1 c1 t1) n2 c2 t2).elements
      = (addDecls (elemsOfContents (contentsOf v))
          (((parseContent c1).getD []) ++ ((parseContent c2).getD []))).map
          (fun p => (p.1, carrySetting (addStringResult v n1 c1 t1) p.1 p.2)) := by
  rw [addStringResult_elements]
  have hco : contentsOf (addStringResult v n1 c1 t1) = contentsOf v ++ [c1] := by
    rw [contentsOf_eq, addStringResult_sources v n1 c1 t1 hnd hwf,
      aupsert_of_alookup_none hfresh1, List.map_append, ← contentsOf_eq v]
    rfl
  rw [hco, elemsOfContents_append_one, ← addDecls_append]

/-- C7 counterexample: sources A = (`n`, `class W`) and B = (`m`, `class U`)
declare disjoint identifiers, yet over a vocabulary that already holds a
source named `n` (content `class Z`), adding A then B yields elements
{W, U} while adding B then A yields {Z, U, W}: replacing source `n` drops
`Z` in one order but not the other, so the final element sets differ. -/
theorem C7_counterexample :
    (addTwice ⟨[(0, ⟨[("n", ⟨"n", "class Z", 0⟩)], []⟩)], 1⟩ 0
        "n" "class W" 1 "m" "class U" 2).2 = Except.ok 2
    ∧ (addTwice ⟨[(0, ⟨[("n", ⟨"n", "class Z", 0⟩)], []⟩)], 1⟩ 0
        "m" "class U" 1 "n" "class W" 2).2 = Except.ok 2
    ∧ (declIds "class W").all (fun i => !(declIds "class U").contains i) = true
    ∧ sameElemsB
        (elementsAt (addTwice ⟨[(0, ⟨[("n", ⟨"n", "class Z", 0⟩)], []⟩)], 1⟩ 0
          "n" "class W" 1 "m" "class U" 2).1 2)
        (elementsAt (addTwice ⟨[(0, ⟨[("n", ⟨"n", "class Z", 0⟩)], []⟩)], 1⟩ 0
          "m" "class U" 1 "n" "class W" 2).1 2) = false :=
  ⟨rfl, rfl, rfl, rfl⟩

/-- C7 (amended): for two sources declaring disjoint identifier sets whose
names are not yet present in the vocabulary's sources mapping, adding A then
B and adding B then A both succeed and produce the same final element set
(the same identifiers, each with the same set of facts). -/
theorem C7_order_independence (h : VHeap) (a : Nat) (v : Vocabulary)
    (nA cA nB cB : String) (t1 t2 t3 t4 : Nat)
    (hget : h.get a = some v)
    (hnd : (v.sources.map Prod.fst).Nodup)
    (hwf : ∀ p ∈ v.sources, p.1 = p.2.source_name)
    (hold : ∀ s' ∈ sourceValues v, (parseContent s'.content).isSome)
    (hcA : (parseContent cA).isSome) (hcB : (parseContent cB).isSome)
    (hfreshA : alookup nA v.sources = none)
    (hfreshB : alookup nB v.sources = none)
    (hdisj : ∀ i ∈ declIds cA, i ∉ declIds cB) :
    (addTwice h a nA cA t1 nB cB t2).2 = Except.ok (h.next + 1)
    ∧ (addTwice h a nB cB t3 nA cA t4).2 = Except.ok (h.next + 1)
    ∧ sameElemsB
        (elementsAt (addTwice h a nA cA t1 nB cB t2).1 (h.next + 1))
        (elementsAt (addTwice h a nB cB t3 nA cA t4).1 (h.next + 1)) = true := by
  have e1A := add_string_ok h a v nA cA t1 hget hold hcA
  have hget1A : ((h.alloc Vocabulary.empty).1.set h.next
      (addStringResult v nA cA t1)).get h.next
      = some (addStringResult v nA cA t1) := VHeap.get_set_self _ _ _
  have e2A := add_string_ok
    ((h.alloc Vocabulary.empty).1.set h.next (addStringResult v nA cA t1))
    h.next (addStringResult v nA cA t1) nB cB t2 hget1A
    (hold_addStringResult v nA cA t1 hnd hwf hold hcA) hcB
  have e1B := add_string_ok h a v nB cB t3 hget hold hcB
  have hget1B : ((h.alloc Vocabulary.empty).1.set h.next
      (addStringResult v nB cB t3)).get h.next
      = some (addStringResult v nB cB t3) := VHeap.get_set_self _ _ _
  have e2B := add_string_ok
    ((h.alloc Vocabulary.empty).1.set h.next (addStringResult v nB cB t3))
    h.next (addStringResult v nB cB t3) nA cA t4 hget1B
    (hold_addStringResult v nB cB t3 hnd hwf hold hcB) hcA
  have hTA : addTwice h a nA cA t1 nB cB t2
      = add_ontology_to_vocabulary_as_string
          ((h.alloc Vocabulary.empty).1.set h.next (addStringResult v nA cA t1))
          h.next nB cB t2 := by
    unfold addTwice
    rw [e1A]
  have hTB : addTwice h a nB cB t3 nA cA t4
      = add_ontology_to_vocabulary_as_string
          ((h.alloc Vocabulary.empty).1.set h.next (addStringResult v nB cB t3))
          h.next nA cA t4 := by
    unfold addTwice
    rw [e1B]
  refine ⟨?_, ?_, ?_⟩
  · rw [hTA, e2A]
    rfl
  · rw [hTB, e2B]
    rfl
  · have eltAB : elementsAt (addTwice h a nA cA t1 nB cB t2).1 (h.next + 1)
        = (addStringResult (addStringResult v nA cA t1) nB cB t2).elements := by
      rw [hTA, e2A]
      exact elementsAt_set_self _ _ _
    have eltBA : elementsAt (addTwice h a nB cB t3 nA cA t4).1 (h.next + 1)
        = (addStringResult (addStringResult v nB cB t3) nA cA t4).elements := by
      rw [hTB, e2B]
      exact elementsAt_set_self _ _ _
    rw [eltAB, eltBA]
    rw [addString_twice_elements v nA cA nB cB t1 t2 hnd hwf hfreshA,
      addString_twice_elements v nB cB nA cA t3 t4 hnd hwf hfreshB]
    apply sameElemsB_of
    · intro id
      rw [alookup_carrymap_isSome, alookup_carrymap_isSome,
        alookup_addDecls_isSome, alookup_addDecls_isSome]
      simp only [List.map_append, List.mem_append]
      tauto
    · intro id f
      rw [factsAt_carrymap, factsAt_carrymap,
        mem_factsAt_addDecls, mem_factsAt_addDecls]
      simp only [List.mem_append]
      constructor
      · rintro (hh | ⟨d, (hd | hd), h1, h2⟩)
        · exact Or.inl hh
        · exact Or.inr ⟨d, Or.inr hd, h1, h2⟩
        · exact Or.inr ⟨d, Or.inl hd, h1, h2⟩
      · rintro (hh | ⟨d, (hd | hd), h1, h2⟩)
        · exact Or.inl hh
        · exact Or.inr ⟨d, Or.inr hd, h1, h2⟩
        · exact Or.inr ⟨d, Or.inl hd, h1, h2⟩

/-- Witness for C7 at a concrete vocabulary and two fresh, disjoint sources. -/
theorem C7_order_independence_witness :
    (addTwice ⟨[(0, ⟨[("a", ⟨"a", "class E", 0⟩)], []⟩)], 1⟩ 0
        "b" "class W" 1 "m" "class U" 2).2 = Except.ok 2
    ∧ (addTwice ⟨[(0, ⟨[("a", ⟨"a", "class E", 0⟩)], []⟩)], 1⟩ 0
        "m" "class U" 3 "b" "class W" 4).2 = Except.ok 2
    ∧ sameElemsB
        (elementsAt (addTwice ⟨[(0, ⟨[("a", ⟨"a", "class E", 0⟩)], []⟩)], 1⟩ 0
          "b" "class W" 1 "m" "class U" 2).1 2)
        (elementsAt (addTwice ⟨[(0, ⟨[("a", ⟨"a", "class E", 0⟩)], []⟩)], 1⟩ 0
          "m" "class U" 3 "b" "class W" 4).1 2) = true :=
  C7_order_independence ⟨[(0, ⟨[("a", ⟨"a", "class E", 0⟩)], []⟩)], 1⟩ 0
    ⟨[("a", ⟨"a", "class E", 0⟩)], []⟩ "b" "class W" "m" "class U" 1 2 3 4
    rfl (by decide) (by decide) (by decide) (by decide) (by decide) rfl rfl
    (by decide)

/-- C10: every `Notification` accepted by the root validator
`validate_endpoints` has at most one of `http`, `httpCustom`, `mqtt`,
`mqttCustom` set; constructing an instance with two or more endpoints set
fails validation, and — since `Config.validate_assignment` re-runs the root
validator — assigning a value that would make a second endpoint non-None
fails as well, leaving the object unchanged. -/
theorem C10_endpoint_invariant :
    (∀ n : Notification, validate_endpoints n = true → endpointCount n ≤ 1)
    ∧ (∀ (hh : Option Http) (hc : Option HttpCustom) (m : Option Mqtt)
        (mc : Option MqttCustom), 2 ≤ endpointCount ⟨hh, hc, m, mc⟩ →
        constructNotification hh hc m mc = none)
    ∧ (∀ (n : Notification) (e : EndpointAssign),
        2 ≤ endpointCount (applyAssign n e) → setattrNotification n e = none) := by
  refine ⟨?_, ?_, ?_⟩
  · intro n hv
    obtain ⟨hh, hc, m, mc⟩ := n
    cases hh <;> cases hc <;> cases m <;> cases mc <;>
      simp_all [validate_endpoints, endpointCount]
  · intro hh hc m mc hcount
    cases hh <;> cases hc <;> cases m <;> cases mc <;>
      simp_all [constructNotification, validate_endpoints, endpointCount]
  · intro n e hcount
    obtain ⟨hh, hc, m, mc⟩ := n
    cases e <;> rename_i x <;> cases x <;>
      cases hh <;> cases hc <;> cases m <;> cases mc <;>
        simp_all [setattrNotification, applyAssign, validate_endpoints,
          endpointCount]

/-- Witness for C10: a validated HTTP-only notification rejects the
assignment of an MQTT endpoint. -/
theorem C10_endpoint_invariant_witness :
    setattrNotification ⟨some ⟨"http://cb:1026"⟩, none, none, none⟩
      (EndpointAssign.toMqtt (some ⟨"mqtt://broker:1883", "topic"⟩)) = none :=
  C10_endpoint_invariant.2.2 ⟨some ⟨"http://cb:1026"⟩, none, none, none⟩
    (EndpointAssign.toMqtt (some ⟨"mqtt://broker:1883", "topic"⟩)) (by decide)
